import Mathlib

/-!
Verification of the cache layer and listing service of the desafio-backend
repository: cache key generation, TTL expiry, invalidation by key prefix,
the read-through/write-invalidate orchestration of the paginated listing
service, and the HTTP bootstrap's port selection.

The cache and listing-service implementation files are not part of the
source snapshot (only the repository documentation describing them is), so
those components are modelled from the specification; the bootstrap port
selection is embedded from `src/main.ts`.
-/

namespace DesafioBackend

/-! ### Character-list helpers -/

/-- Boolean test that the first character list is a prefix of the second. -/
def charsPre : List Char → List Char → Bool
  | [], _ => true
  | _ :: _, [] => false
  | c :: cs, d :: ds => c == d && charsPre cs ds

/-- Boolean test that string `s` starts with string `p`. -/
def strStartsWith (s p : String) : Bool := charsPre p.data s.data

theorem charsPre_append (l t : List Char) : charsPre l (l ++ t) = true := by
  induction l with
  | nil => rfl
  | cons c cs ih => simp [charsPre, ih]

/-! ### Escaped serialisation of parameter pairs

The key generator serialises a sorted list of name/value pairs into a
string.  Separator characters inside names and values are escaped so that
the serialisation is injective (the specification demands that differing
parameter values produce different keys). -/

/-- Escape one character: the separators and the escape character become
two-character escape sequences, every other character stands for itself. -/
def escChar (c : Char) : List Char :=
  if c = '\\' then ['\\', 'b']
  else if c = '&' then ['\\', 'a']
  else if c = '=' then ['\\', 'e']
  else [c]

/-- Escape a character list. -/
def escChars : List Char → List Char
  | [] => []
  | c :: cs => escChar c ++ escChars cs

/-- Decode one escape-sequence tag back to the character it stands for. -/
def unescChar (d : Char) : Char :=
  if d = 'b' then '\\' else if d = 'a' then '&' else if d = 'e' then '=' else d

/-- Undo `escChars`. -/
def unescChars : List Char → List Char
  | [] => []
  | c :: cs =>
    if c = '\\' then
      match cs with
      | [] => []
      | d :: cs2 => unescChar d :: unescChars cs2
    else c :: unescChars cs

theorem unescChars_cons_ne (c : Char) (cs : List Char) (h : c ≠ '\\') :
    unescChars (c :: cs) = c :: unescChars cs := by
  cases cs with
  | nil => rw [unescChars.eq_2, if_neg h]
  | cons d ds => rw [unescChars.eq_3, if_neg h]

theorem unescChars_escChars (cs : List Char) : unescChars (escChars cs) = cs := by
  induction cs with
  | nil => rfl
  | cons c cs ih =>
    by_cases h1 : c = '\\'
    · subst h1; simp [escChars, escChar, unescChars, unescChar, ih]
    · by_cases h2 : c = '&'
      · subst h2; simp [escChars, escChar, unescChars, unescChar, ih]
      · by_cases h3 : c = '='
        · subst h3; simp [escChars, escChar, unescChars, unescChar, ih]
        · rw [escChars, escChar, if_neg h1, if_neg h2, if_neg h3,
            List.singleton_append, unescChars_cons_ne c _ h1, ih]

theorem amp_not_mem_escChar (c : Char) : '&' ∉ escChar c := by
  unfold escChar
  split_ifs with h1 h2 h3
  · decide
  · decide
  · decide
  · simp only [List.mem_singleton]
    exact fun he => h2 he.symm

theorem eq_not_mem_escChar (c : Char) : '=' ∉ escChar c := by
  unfold escChar
  split_ifs with h1 h2 h3
  · decide
  · decide
  · decide
  · simp only [List.mem_singleton]
    exact fun he => h3 he.symm

theorem amp_not_mem_escChars (cs : List Char) : '&' ∉ escChars cs := by
  induction cs with
  | nil => simp [escChars]
  | cons c cs ih =>
    simp only [escChars, List.mem_append]
    rintro (h | h)
    · exact amp_not_mem_escChar c h
    · exact ih h

theorem eq_not_mem_escChars (cs : List Char) : '=' ∉ escChars cs := by
  induction cs with
  | nil => simp [escChars]
  | cons c cs ih =>
    simp only [escChars, List.mem_append]
    rintro (h | h)
    · exact eq_not_mem_escChar c h
    · exact ih h

/-- Split a character list at the first occurrence of `sep`, dropping the
separator itself; when `sep` does not occur the whole list is the first
component and the remainder is empty. -/
def takeUntil (sep : Char) : List Char → List Char × List Char
  | [] => ([], [])
  | c :: cs =>
    if c = sep then ([], cs)
    else
      let p := takeUntil sep cs
      (c :: p.1, p.2)

theorem takeUntil_append (sep : Char) (l t : List Char) (h : sep ∉ l) :
    takeUntil sep (l ++ sep :: t) = (l, t) := by
  induction l with
  | nil => simp [takeUntil]
  | cons c cs ih =>
    have hc : c ≠ sep := by intro he; exact h (he ▸ List.mem_cons_self c cs)
    have hcs : sep ∉ cs := fun hm => h (List.mem_cons_of_mem c hm)
    simp [takeUntil, hc, ih hcs]

theorem takeUntil_not_mem (sep : Char) (l : List Char) (h : sep ∉ l) :
    takeUntil sep l = (l, []) := by
  induction l with
  | nil => rfl
  | cons c cs ih =>
    have hc : c ≠ sep := by intro he; exact h (he ▸ List.mem_cons_self c cs)
    have hcs : sep ∉ cs := fun hm => h (List.mem_cons_of_mem c hm)
    simp [takeUntil, hc, ih hcs]

theorem takeUntil_snd_le (sep : Char) (l : List Char) :
    (takeUntil sep l).2.length ≤ l.length := by
  induction l with
  | nil => simp [takeUntil]
  | cons c cs ih =>
    by_cases hc : c = sep
    · simp [takeUntil, hc]
    · simp only [takeUntil, if_neg hc]
      exact Nat.le_succ_of_le ih

theorem takeUntil_snd_lt (sep : Char) (c : Char) (cs : List Char) :
    (takeUntil sep (c :: cs)).2.length < (c :: cs).length := by
  by_cases hc : c = sep
  · simp [takeUntil, hc]
  · simp only [takeUntil, if_neg hc, List.length_cons]
    exact Nat.lt_succ_of_le (takeUntil_snd_le sep cs)

/-- Serialise one parameter pair: escaped name, the name/value separator,
escaped value. -/
def serPair (kv : String × String) : List Char :=
  escChars kv.1.data ++ '=' :: escChars kv.2.data

/-- Serialise a list of parameter pairs, each pair terminated by the pair
separator. -/
def serPairs : List (String × String) → List Char
  | [] => []
  | kv :: rest => serPair kv ++ '&' :: serPairs rest

/-- Parse the serialisation back into its list of pairs. -/
def deserPairs : List Char → List (String × String)
  | [] => []
  | c :: cs =>
    let p1 := takeUntil '=' (c :: cs)
    let p2 := takeUntil '&' p1.2
    (String.mk (unescChars p1.1), String.mk (unescChars p2.1)) :: deserPairs p2.2
  termination_by l => l.length
  decreasing_by
    simp only [List.length_cons]
    calc (takeUntil '&' (takeUntil '=' (c :: cs)).2).2.length
        ≤ (takeUntil '=' (c :: cs)).2.length := takeUntil_snd_le _ _
      _ < cs.length + 1 := takeUntil_snd_lt _ _ _

theorem deserPairs_ne_nil (L : List Char) (hL : L ≠ []) :
    deserPairs L =
      (String.mk (unescChars (takeUntil '=' L).1),
       String.mk (unescChars (takeUntil '&' (takeUntil '=' L).2).1)) ::
        deserPairs (takeUntil '&' (takeUntil '=' L).2).2 := by
  cases L with
  | nil => exact absurd rfl hL
  | cons c cs => rw [deserPairs]

theorem deserPairs_serPairs (ps : List (String × String)) :
    deserPairs (serPairs ps) = ps := by
  induction ps with
  | nil => rw [serPairs, deserPairs]
  | cons kv rest ih =>
    obtain ⟨k, v⟩ := kv
    have hser : serPairs ((k, v) :: rest)
        = escChars k.data ++ '=' :: (escChars v.data ++ '&' :: serPairs rest) := by
      simp [serPairs, serPair]
    have hne : serPairs ((k, v) :: rest) ≠ [] := by
      rw [hser]
      intro h
      rcases List.append_eq_nil.mp h with ⟨_, h2⟩
      exact List.cons_ne_nil _ _ h2
    rw [deserPairs_ne_nil _ hne, hser]
    rw [takeUntil_append '=' (escChars k.data) _ (eq_not_mem_escChars k.data)]
    rw [takeUntil_append '&' (escChars v.data) _ (amp_not_mem_escChars v.data)]
    simp only [unescChars_escChars, ih]

theorem serPairs_injective (ps1 ps2 : List (String × String))
    (h : serPairs ps1 = serPairs ps2) : ps1 = ps2 := by
  have := congrArg deserPairs h
  rwa [deserPairs_serPairs, deserPairs_serPairs] at this

/-! ### Canonical ordering of parameter pairs -/

/-- Lexicographic order on name/value pairs: by parameter name first, then
by value. -/
def pairLe (a b : String × String) : Prop :=
  a.1 < b.1 ∨ (a.1 = b.1 ∧ a.2 ≤ b.2)

instance : DecidableRel pairLe := fun a b => by
  unfold pairLe
  infer_instance

instance : IsTotal (String × String) pairLe := by
  constructor
  intro a b
  rcases lt_trichotomy a.1 b.1 with h | h | h
  · exact Or.inl (Or.inl h)
  · rcases le_total a.2 b.2 with h2 | h2
    · exact Or.inl (Or.inr ⟨h, h2⟩)
    · exact Or.inr (Or.inr ⟨h.symm, h2⟩)
  · exact Or.inr (Or.inl h)

instance : IsTrans (String × String) pairLe := by
  constructor
  intro a b c hab hbc
  rcases hab with h1 | ⟨e1, l1⟩
  · rcases hbc with h2 | ⟨e2, _⟩
    · exact Or.inl (lt_trans h1 h2)
    · exact Or.inl (e2 ▸ h1)
  · rcases hbc with h2 | ⟨e2, l2⟩
    · exact Or.inl (e1 ▸ h2)
    · exact Or.inr ⟨e1.trans e2, le_trans l1 l2⟩

instance : IsAntisymm (String × String) pairLe := by
  constructor
  intro a b hab hba
  rcases hab with h1 | ⟨e1, l1⟩
  · rcases hba with h2 | ⟨e2, _⟩
    · exact absurd h2 (lt_asymm h1)
    · exact absurd (e2 ▸ h1) (lt_irrefl b.1)
  · rcases hba with h2 | ⟨e2, l2⟩
    · exact absurd (e1 ▸ h2) (lt_irrefl b.1)
    · exact Prod.ext e1 (le_antisymm l1 l2)

/-! ### Key generation -/

/-- Parameters whose value is defined (not `undefined`), in input order;
an absent value is dropped from the key material, so that semantically
equivalent queries share a key. -/
def definedParams (params : List (String × Option String)) : List (String × String) :=
  params.filterMap (fun kv => kv.2.map (fun v => (kv.1, v)))

namespace CacheService

/-- Modelled from the spec: `CacheService.generateKey(prefix, params)` of
`src/common/cache/cache.service.ts` (the cache implementation file is
absent from the source snapshot).  The defined parameters are sorted into
canonical order, serialised with escaped separators, and prepended with
the feature prefix. -/
def generateKey (pre : String) (params : List (String × Option String)) : String :=
  pre ++ ":" ++ String.mk (serPairs (List.insertionSort pairLe (definedParams params)))

end CacheService

theorem insertionSort_eq_of_perm (l1 l2 : List (String × String)) (h : l1.Perm l2) :
    List.insertionSort pairLe l1 = List.insertionSort pairLe l2 :=
  List.eq_of_perm_of_sorted
    (((List.perm_insertionSort pairLe l1).trans h).trans
      (List.perm_insertionSort pairLe l2).symm)
    (List.sorted_insertionSort pairLe l1) (List.sorted_insertionSort pairLe l2)

/-- In a list of pairs whose first components are distinct, the first
component determines the second. -/
theorem keyUnique {l : List (String × String)} (hnd : (l.map Prod.fst).Nodup)
    {k : String} {v1 v2 : String} (h1 : (k, v1) ∈ l) (h2 : (k, v2) ∈ l) : v1 = v2 := by
  induction l with
  | nil => cases h1
  | cons kv rest ih =>
    rw [List.map_cons, List.nodup_cons] at hnd
    obtain ⟨hnotin, hndrest⟩ := hnd
    rcases List.mem_cons.mp h1 with he1 | hm1
    · rcases List.mem_cons.mp h2 with he2 | hm2
      · have hv := he1.trans he2.symm
        injection hv with h hv2
      · exfalso
        apply hnotin
        rw [← he1]
        exact List.mem_map.mpr ⟨(k, v2), hm2, rfl⟩
    · rcases List.mem_cons.mp h2 with he2 | hm2
      · exfalso
        apply hnotin
        rw [← he2]
        exact List.mem_map.mpr ⟨(k, v1), hm1, rfl⟩
      · exact ih hndrest hm1 hm2

theorem string_append_cancel_left (a b c : String) (h : a ++ b = a ++ c) : b = c := by
  have hd : a.data ++ b.data = a.data ++ c.data := by
    have := congrArg String.data h
    rwa [String.data_append, String.data_append] at this
  have hbc : b.data = c.data := List.append_cancel_left hd
  cases b; cases c
  exact congrArg String.mk hbc

/-- Two parameter lists with the same generated key have permutation-equal
defined parameters. -/
theorem generateKey_eq_perm (pre : String) (p1 p2 : List (String × Option String))
    (h : CacheService.generateKey pre p1 = CacheService.generateKey pre p2) :
    (definedParams p1).Perm (definedParams p2) := by
  unfold CacheService.generateKey at h
  have hmk : String.mk (serPairs (List.insertionSort pairLe (definedParams p1)))
      = String.mk (serPairs (List.insertionSort pairLe (definedParams p2))) :=
    string_append_cancel_left _ _ _ h
  have hser : serPairs (List.insertionSort pairLe (definedParams p1))
      = serPairs (List.insertionSort pairLe (definedParams p2)) := by
    have := congrArg String.data hmk
    simpa using this
  have hsort := serPairs_injective _ _ hser
  exact (List.perm_insertionSort pairLe (definedParams p1)).symm.trans
    (hsort ▸ List.perm_insertionSort pairLe (definedParams p2))

/-! ### Cache store -/

/-- One cache entry: an opaque value and its absolute expiry time. -/
structure CacheEntry (α : Type) where
  value : α
  expiresAt : Nat
deriving DecidableEq, Repr

/-- The process-wide cache: a mapping from string key to entry, modelled as
an association list with at most one binding per key. -/
abbrev Store (α : Type) := List (String × CacheEntry α)

/-- Default time-to-live of a cache entry, in seconds. -/
def DEFAULT_TTL : Nat := 300

variable {α : Type}

/-- Look a key up in the store, ignoring expiry. -/
def lookupEntry (k : String) : Store α → Option (CacheEntry α)
  | [] => none
  | kv :: rest => if kv.1 = k then some kv.2 else lookupEntry k rest

namespace CacheService

/-- Modelled from the spec: `CacheService.get(key)` (cache implementation
file absent from the source snapshot): return the stored value when present
and not yet expired; an entry whose expiry time has been reached behaves as
if absent. -/
def get (now : Nat) (store : Store α) (k : String) : Option α :=
  match lookupEntry k store with
  | none => none
  | some e => if e.expiresAt ≤ now then none else some e.value

/-- Remove every binding for a key. -/
def eraseKey (k : String) : Store α → Store α
  | [] => []
  | kv :: rest => if kv.1 = k then eraseKey k rest else kv :: eraseKey k rest

/-- Modelled from the spec: `CacheService.set(key, value, ttlSeconds)`
(cache implementation file absent from the source snapshot): store the
value with expiry `now + ttl`, overwriting any existing binding for the
key. -/
def set (now : Nat) (store : Store α) (k : String) (v : α) (ttl : Nat) : Store α :=
  (k, ⟨v, now + ttl⟩) :: eraseKey k store

/-- Modelled from the spec: `delete(key)` removes the entry
unconditionally, a no-op when absent. -/
def del (k : String) (store : Store α) : Store α := eraseKey k store

/-- Modelled from the spec: `CacheService.invalidateByPrefix(prefix)`
(cache implementation file absent from the source snapshot): remove every
entry whose key starts with the given feature prefix. -/
def invalidateByPrefix (pre : String) : Store α → Store α
  | [] => []
  | kv :: rest =>
    if strStartsWith kv.1 pre then invalidateByPrefix pre rest
    else kv :: invalidateByPrefix pre rest

end CacheService

/-! ### Listing service -/

/-- A news record as stored by the persistence collaborator. -/
structure Noticia where
  id : Nat
  titulo : String
  descricao : String
deriving DecidableEq, Repr

/-- Raw listing query parameters as they arrive from the HTTP layer; absent
ones are `none`. -/
structure QueryParams where
  page : Option Nat
  limit : Option Nat
  search : Option String
deriving DecidableEq, Repr

/-- Modelled from the spec: parameter normalisation of the listing read
path, defaulting the page to 1. -/
def normPage (p : QueryParams) : Nat := p.page.getD 1

/-- Modelled from the spec: parameter normalisation of the listing read
path, defaulting the limit to 10 and clamping it into [1, 100]. -/
def normLimit (p : QueryParams) : Nat := min 100 (max 1 (p.limit.getD 10))

/-- Case-insensitive containment of one character list in another. -/
def hasSub (hay needle : List Char) : Bool :=
  match hay with
  | [] => needle.isEmpty
  | _ :: rest => charsPre needle hay || hasSub rest needle

/-- Modelled from the spec: the search filter of the persistence
collaborator, matching the search term case-insensitively against title
and description. -/
def matchesSearch (q : Option String) (n : Noticia) : Bool :=
  match q with
  | none => true
  | some s =>
    hasSub (n.titulo.data.map Char.toLower) (s.data.map Char.toLower) ||
    hasSub (n.descricao.data.map Char.toLower) (s.data.map Char.toLower)

/-- Modelled from the spec: `findPage(offset, limit, filter)` of the
persistence collaborator, returning one page of matching records and the
total count of matches. -/
def findPage (db : List Noticia) (q : Option String) (offset lim : Nat) :
    List Noticia × Nat :=
  let filtered := db.filter (matchesSearch q)
  ((filtered.drop offset).take lim, filtered.length)

/-- The pagination response envelope. -/
structure Envelope where
  data : List Noticia
  total : Nat
  page : Nat
  limit : Nat
  totalPages : Nat
deriving DecidableEq, Repr

/-- Ceiling division on naturals, as `Math.ceil(total / limit)`. -/
def ceilDiv (a b : Nat) : Nat := (a + b - 1) / b

/-- The feature prefix of the news listing cache keys. -/
def noticiasPre : String := "noticias"

/-- The normalised parameters handed to the key generator. -/
def paramsList (p : QueryParams) : List (String × Option String) :=
  [("page", some (toString (normPage p))),
   ("limit", some (toString (normLimit p))),
   ("search", p.search)]

/-- The cache key of one listing query. -/
def listKey (p : QueryParams) : String :=
  CacheService.generateKey noticiasPre (paramsList p)

/-- Assemble the response envelope from a page of records and the total
count. -/
def mkEnvelope (recs : List Noticia) (total page lim : Nat) : Envelope :=
  ⟨recs, total, page, lim, ceilDiv total lim⟩

/-- Modelled from the spec: the read-through listing path
(`NoticiasService.findAll`, implementation file absent from the source
snapshot).  On a cache hit the cached envelope is returned and the
persistence collaborator is not queried; on a miss the collaborator is
queried once, the envelope assembled, stored with the default TTL, and
returned.  The third component counts the backing-store queries issued. -/
def listPage (now : Nat) (cache : Store Envelope) (db : List Noticia)
    (p : QueryParams) : Envelope × Store Envelope × Nat :=
  match CacheService.get now cache (listKey p) with
  | some env => (env, cache, 0)
  | none =>
    let pr := findPage db p.search ((normPage p - 1) * normLimit p) (normLimit p)
    let env := mkEnvelope pr.1 pr.2 (normPage p) (normLimit p)
    (env, CacheService.set now cache (listKey p) env DEFAULT_TTL, 1)

/-- Modelled from the spec: the listing read path with a fallible
persistence collaborator; on a miss the collaborator's outcome is taken as
given, and a failure propagates unchanged without touching the cache. -/
def listPageE (now : Nat) (cache : Store Envelope) (p : QueryParams)
    (dbResult : Except String (List Noticia × Nat)) :
    Except String Envelope × Store Envelope :=
  match CacheService.get now cache (listKey p) with
  | some env => (Except.ok env, cache)
  | none =>
    match dbResult with
    | Except.error e => (Except.error e, cache)
    | Except.ok pr =>
      let env := mkEnvelope pr.1 pr.2 (normPage p) (normLimit p)
      (Except.ok env, CacheService.set now cache (listKey p) env DEFAULT_TTL)

/-- The state seen by the listing service: the cache and the backing
store. -/
structure ListState where
  cache : Store Envelope
  db : List Noticia

/-- Modelled from the spec: `create(input)` inserts the record through the
persistence collaborator and then invalidates the feature's cached key
space before returning. -/
def create (st : ListState) (n : Noticia) : Noticia × ListState :=
  (n, ⟨CacheService.invalidateByPrefix noticiasPre st.cache, st.db ++ [n]⟩)

/-- A partial update of a news record. -/
structure NoticiaPatch where
  titulo : Option String
  descricao : Option String
deriving DecidableEq, Repr

/-- Apply a partial update to a record. -/
def applyPatch (n : Noticia) (patch : NoticiaPatch) : Noticia :=
  { n with titulo := patch.titulo.getD n.titulo,
           descricao := patch.descricao.getD n.descricao }

/-- Modelled from the spec: `update(id, patch)` patches the record when it
exists, invalidating the feature's cached key space on a committed change;
a missing id is reported as not-found and leaves the state unchanged. -/
def update (st : ListState) (i : Nat) (patch : NoticiaPatch) :
    Option Noticia × ListState :=
  match st.db.find? (fun n => n.id == i) with
  | none => (none, st)
  | some n =>
    (some (applyPatch n patch),
     ⟨CacheService.invalidateByPrefix noticiasPre st.cache,
      st.db.map (fun m => if m.id == i then applyPatch m patch else m)⟩)

/-- Modelled from the spec: `remove(id)` deletes the record when it exists,
invalidating the feature's cached key space on a committed change; a
missing id is reported as not-found and leaves the state unchanged. -/
def remove (st : ListState) (i : Nat) : Bool × ListState :=
  if st.db.any (fun n => n.id == i) then
    (true,
     ⟨CacheService.invalidateByPrefix noticiasPre st.cache,
      st.db.filter (fun n => !(n.id == i))⟩)
  else (false, st)

/-! ### Bootstrap (from src/main.ts) -/

/-- The value passed as port to `app.listen` in `bootstrap` of
`src/main.ts`: the PORT environment variable when set, the number 3000
otherwise (`process.env.PORT ?? 3000`). -/
def bootstrapPort (envPort : Option String) : String ⊕ Nat :=
  match envPort with
  | some s => Sum.inl s
  | none => Sum.inr 3000

/-- The host `bootstrap` binds the HTTP server to in `src/main.ts`. -/
def bootstrapHost : String := "0.0.0.0"

/-! ### Cache-store lemmas -/

theorem get_of_lookup_some {now : Nat} {store : Store α} {k : String} {e : CacheEntry α}
    (h : lookupEntry k store = some e) :
    CacheService.get now store k = if e.expiresAt ≤ now then none else some e.value := by
  unfold CacheService.get
  rw [h]

theorem get_of_lookup_none {now : Nat} {store : Store α} {k : String}
    (h : lookupEntry k store = none) : CacheService.get now store k = none := by
  unfold CacheService.get
  rw [h]

theorem lookupEntry_set_self (now : Nat) (store : Store α) (k : String) (v : α)
    (ttl : Nat) :
    lookupEntry k (CacheService.set now store k v ttl) = some ⟨v, now + ttl⟩ := by
  simp [CacheService.set, lookupEntry]

theorem lookupEntry_invalidateByPrefix (pre k : String) (store : Store α) :
    lookupEntry k (CacheService.invalidateByPrefix pre store)
      = if strStartsWith k pre then none else lookupEntry k store := by
  induction store with
  | nil => simp [CacheService.invalidateByPrefix, lookupEntry]
  | cons kv rest ih =>
    by_cases hk : kv.1 = k
    · subst hk
      by_cases hs : strStartsWith kv.1 pre
      · simp [CacheService.invalidateByPrefix, hs, ih]
      · simp [CacheService.invalidateByPrefix, hs, lookupEntry]
    · by_cases hs : strStartsWith kv.1 pre
      · simp [CacheService.invalidateByPrefix, hs, ih, lookupEntry, hk]
      · simp [CacheService.invalidateByPrefix, hs, ih, lookupEntry, hk]

theorem get_invalidateByPrefix (now : Nat) (pre k : String) (store : Store α) :
    CacheService.get now (CacheService.invalidateByPrefix pre store) k
      = if strStartsWith k pre then none else CacheService.get now store k := by
  by_cases hs : strStartsWith k pre
  · rw [if_pos hs]
    exact get_of_lookup_none (by rw [lookupEntry_invalidateByPrefix, if_pos hs])
  · rw [if_neg hs]
    unfold CacheService.get
    rw [lookupEntry_invalidateByPrefix, if_neg hs]

theorem strStartsWith_generateKey (pre : String) (params : List (String × Option String)) :
    strStartsWith (CacheService.generateKey pre params) pre = true := by
  unfold CacheService.generateKey strStartsWith
  rw [String.data_append, String.data_append, List.append_assoc]
  exact charsPre_append _ _

theorem strStartsWith_listKey (p : QueryParams) :
    strStartsWith (listKey p) noticiasPre = true :=
  strStartsWith_generateKey noticiasPre (paramsList p)

theorem get_set_fresh (now : Nat) (store : Store α) (k : String) (v : α) (ttl : Nat)
    (h : 0 < ttl) :
    CacheService.get now (CacheService.set now store k v ttl) k = some v := by
  rw [get_of_lookup_some (lookupEntry_set_self now store k v ttl)]
  have hne : ¬ ((⟨v, now + ttl⟩ : CacheEntry α).expiresAt ≤ now) := by
    show ¬ (now + ttl ≤ now)
    omega
  exact if_neg hne

theorem get_set_expired (now t : Nat) (store : Store α) (k : String) (v : α)
    (ttl : Nat) (h : now + ttl ≤ t) :
    CacheService.get t (CacheService.set now store k v ttl) k = none := by
  rw [get_of_lookup_some (lookupEntry_set_self now store k v ttl)]
  have hle : (⟨v, now + ttl⟩ : CacheEntry α).expiresAt ≤ t := h
  exact if_pos hle

theorem listPage_hit {now : Nat} {cache : Store Envelope} {db : List Noticia}
    {p : QueryParams} {env : Envelope}
    (h : CacheService.get now cache (listKey p) = some env) :
    listPage now cache db p = (env, cache, 0) := by
  unfold listPage
  rw [h]

theorem listPage_miss {now : Nat} {cache : Store Envelope} {db : List Noticia}
    {p : QueryParams} (h : CacheService.get now cache (listKey p) = none) :
    listPage now cache db p =
      (mkEnvelope (findPage db p.search ((normPage p - 1) * normLimit p) (normLimit p)).1
          (findPage db p.search ((normPage p - 1) * normLimit p) (normLimit p)).2
          (normPage p) (normLimit p),
       CacheService.set now cache (listKey p)
         (mkEnvelope (findPage db p.search ((normPage p - 1) * normLimit p) (normLimit p)).1
            (findPage db p.search ((normPage p - 1) * normLimit p) (normLimit p)).2
            (normPage p) (normLimit p)) DEFAULT_TTL,
       1) := by
  unfold listPage
  rw [h]

/-! ### Claim theorems -/

/-- C1: for every prefix and every two parameter mappings that are
set-equal (same parameter names and values, regardless of insertion
order), `generateKey` produces identical keys. -/
theorem generateKey_set_equal (pre : String) (p1 p2 : List (String × Option String))
    (h : p1.Perm p2) :
    CacheService.generateKey pre p1 = CacheService.generateKey pre p2 := by
  unfold CacheService.generateKey
  have hperm : (definedParams p1).Perm (definedParams p2) := List.Perm.filterMap _ h
  rw [insertionSort_eq_of_perm _ _ hperm]

theorem generateKey_set_equal_witness :
    CacheService.generateKey "noticias" [("page", some "1"), ("limit", some "10")]
      = CacheService.generateKey "noticias" [("limit", some "10"), ("page", some "1")] :=
  generateKey_set_equal "noticias" _ _ (by decide)

/-- C2: `invalidateByPrefix` removes exactly the entries whose key starts
with the prefix: afterwards no key with the prefix is stored or
retrievable, every other entry is unchanged, and in particular
invalidating `"a:"` after setting `"a:1"`, `"a:2"`, `"b:1"` leaves only
`"b:1"` retrievable. -/
theorem invalidateByPrefix_exact :
    (∀ (α : Type) (now : Nat) (pre k : String) (store : Store α),
        lookupEntry k (CacheService.invalidateByPrefix pre store)
          = (if strStartsWith k pre then none else lookupEntry k store) ∧
        CacheService.get now (CacheService.invalidateByPrefix pre store) k
          = (if strStartsWith k pre then none
             else CacheService.get now store k)) ∧
    (∀ (α : Type) (now : Nat) (v1 v2 v3 : α),
        CacheService.get now
            (CacheService.invalidateByPrefix "a:"
              (CacheService.set now
                (CacheService.set now
                  (CacheService.set now ([] : Store α) "a:1" v1 300)
                  "a:2" v2 300)
                "b:1" v3 300))
            "a:1" = none ∧
        CacheService.get now
            (CacheService.invalidateByPrefix "a:"
              (CacheService.set now
                (CacheService.set now
                  (CacheService.set now ([] : Store α) "a:1" v1 300)
                  "a:2" v2 300)
                "b:1" v3 300))
            "a:2" = none ∧
        CacheService.get now
            (CacheService.invalidateByPrefix "a:"
              (CacheService.set now
                (CacheService.set now
                  (CacheService.set now ([] : Store α) "a:1" v1 300)
                  "a:2" v2 300)
                "b:1" v3 300))
            "b:1" = some v3) := by
  constructor
  · intro α now pre k store
    exact ⟨lookupEntry_invalidateByPrefix pre k store,
           get_invalidateByPrefix now pre k store⟩
  · intro α now v1 v2 v3
    refine ⟨?_, ?_, ?_⟩
    · rw [get_invalidateByPrefix, if_pos (by decide)]
    · rw [get_invalidateByPrefix, if_pos (by decide)]
    · rw [get_invalidateByPrefix, if_neg (by decide)]
      exact get_set_fresh now _ "b:1" v3 300 (by omega)

/-- C3: setting a key with a positive TTL and reading it immediately (no
time elapsed) returns the value just stored, the new binding replacing any
previous entry for that key. -/
theorem set_then_get (α : Type) (now : Nat) (store : Store α) (k : String) (v : α)
    (ttl : Nat) (h : 0 < ttl) :
    CacheService.get now (CacheService.set now store k v ttl) k = some v ∧
    lookupEntry k (CacheService.set now store k v ttl) = some ⟨v, now + ttl⟩ := by
  exact ⟨get_set_fresh now store k v ttl h, lookupEntry_set_self now store k v ttl⟩

theorem set_then_get_witness :
    CacheService.get 0 (CacheService.set 0 ([] : Store Nat) "k" 7 300) "k" = some 7 ∧
    lookupEntry "k" (CacheService.set 0 ([] : Store Nat) "k" 7 300) = some ⟨7, 300⟩ :=
  set_then_get Nat 0 [] "k" 7 300 (by decide)

/-- C4: an entry whose expiry time has been reached is never returned by
`get` (it behaves as absent); in particular a key set with a one-second
TTL is absent after two seconds of elapsed time. -/
theorem expired_entry_absent :
    (∀ (α : Type) (t : Nat) (store : Store α) (k : String) (e : CacheEntry α),
        lookupEntry k store = some e → e.expiresAt ≤ t →
        CacheService.get t store k = none) ∧
    (∀ (α : Type) (now : Nat) (store : Store α) (k : String) (v : α),
        CacheService.get (now + 2) (CacheService.set now store k v 1) k = none) := by
  constructor
  · intro α t store k e hl he
    rw [get_of_lookup_some hl]
    exact if_pos he
  · intro α now store k v
    exact get_set_expired now (now + 2) store k v 1 (by omega)

theorem expired_entry_absent_witness :
    CacheService.get 2 ([("k", ⟨5, 1⟩)] : Store Nat) "k" = none :=
  expired_entry_absent.1 Nat 2 [("k", ⟨5, 1⟩)] "k" ⟨5, 1⟩ rfl (by decide)

/-- C5: each committing write (create always, update and remove when they
match a record) leaves the cache equal to `invalidateByPrefix` of the
feature prefix; consequently `create x` followed by
`listPage {page 1, limit 10}` on a previously empty backing store returns
`x` in `data` with total 1, whatever envelope was cached before. -/
theorem writes_invalidate_feature_keyspace :
    (∀ (st : ListState) (n : Noticia),
        ((create st n).2).cache
          = CacheService.invalidateByPrefix noticiasPre st.cache) ∧
    (∀ (st : ListState) (i : Nat) (patch : NoticiaPatch) (r : Noticia)
        (st2 : ListState),
        update st i patch = (some r, st2) →
        st2.cache = CacheService.invalidateByPrefix noticiasPre st.cache) ∧
    (∀ (st : ListState) (i : Nat) (st2 : ListState),
        remove st i = (true, st2) →
        st2.cache = CacheService.invalidateByPrefix noticiasPre st.cache) ∧
    (∀ (cache : Store Envelope) (n : Noticia) (now : Nat),
        (listPage now ((create ⟨cache, []⟩ n).2).cache
            ((create ⟨cache, []⟩ n).2).db ⟨some 1, some 10, none⟩).1
          = ⟨[n], 1, 1, 10, 1⟩) := by
  refine ⟨fun st n => rfl, ?_, ?_, ?_⟩
  · intro st i patch r st2 h
    unfold update at h
    cases hf : st.db.find? (fun n => n.id == i) with
    | none =>
      rw [hf] at h
      injection h with h1 _
      exact Option.noConfusion h1
    | some n =>
      rw [hf] at h
      injection h with _ h2
      rw [← h2]
  · intro st i st2 h
    unfold remove at h
    split at h
    · injection h with _ h2
      rw [← h2]
    · injection h with h1 _
      exact Bool.noConfusion h1
  · intro cache n now
    have hmiss : CacheService.get now (CacheService.invalidateByPrefix noticiasPre cache)
        (listKey ⟨some 1, some 10, none⟩) = none := by
      rw [get_invalidateByPrefix, if_pos (strStartsWith_listKey ⟨some 1, some 10, none⟩)]
    show (listPage now (CacheService.invalidateByPrefix noticiasPre cache) [n]
        ⟨some 1, some 10, none⟩).1 = ⟨[n], 1, 1, 10, 1⟩
    rw [listPage_miss hmiss]
    simp [findPage, matchesSearch, mkEnvelope, ceilDiv, normPage, normLimit]

theorem writes_invalidate_feature_keyspace_witness :
    update ⟨[], [⟨1, "t", "d"⟩]⟩ 1 ⟨some "t2", none⟩
        = (some ⟨1, "t2", "d"⟩, ⟨[], [⟨1, "t2", "d"⟩]⟩) ∧
    (⟨[], [⟨1, "t2", "d"⟩]⟩ : ListState).cache
      = CacheService.invalidateByPrefix noticiasPre
          (⟨[], [⟨1, "t", "d"⟩]⟩ : ListState).cache :=
  ⟨rfl, writes_invalidate_feature_keyspace.2.1 ⟨[], [⟨1, "t", "d"⟩]⟩ 1
    ⟨some "t2", none⟩ ⟨1, "t2", "d"⟩ ⟨[], [⟨1, "t2", "d"⟩]⟩ rfl⟩

/-- C6: on a cache hit `listPage` returns the cached envelope immediately
with no backing-store query, and a second `listPage` call with identical
parameters right after a first one issues no backing-store query. -/
theorem cache_hit_skips_backing_store (now : Nat) (cache : Store Envelope)
    (db : List Noticia) (p : QueryParams) :
    (∀ env : Envelope, CacheService.get now cache (listKey p) = some env →
        listPage now cache db p = (env, cache, 0)) ∧
    (∀ (env : Envelope) (cache2 : Store Envelope) (q : Nat),
        listPage now cache db p = (env, cache2, q) →
        listPage now cache2 db p = (env, cache2, 0)) := by
  constructor
  · intro env h
    exact listPage_hit h
  · intro env cache2 q h
    cases hg : CacheService.get now cache (listKey p) with
    | some env0 =>
      rw [listPage_hit hg] at h
      injection h with h1 h23
      injection h23 with h2 h3
      subst h1; subst h2
      exact listPage_hit hg
    | none =>
      rw [listPage_miss hg] at h
      injection h with h1 h23
      injection h23 with h2 h3
      subst h1; subst h2
      exact listPage_hit (get_set_fresh now cache (listKey p)
        (mkEnvelope (findPage db p.search ((normPage p - 1) * normLimit p) (normLimit p)).1
          (findPage db p.search ((normPage p - 1) * normLimit p) (normLimit p)).2
          (normPage p) (normLimit p)) DEFAULT_TTL (by decide))

theorem cache_hit_skips_backing_store_witness :
    listPage 0
        (CacheService.set 0 [] (listKey ⟨some 1, some 10, none⟩)
          (mkEnvelope [] 0 1 10) DEFAULT_TTL)
        [] ⟨some 1, some 10, none⟩
      = (mkEnvelope [] 0 1 10,
         CacheService.set 0 [] (listKey ⟨some 1, some 10, none⟩)
           (mkEnvelope [] 0 1 10) DEFAULT_TTL,
         0) :=
  (cache_hit_skips_backing_store 0 [] [] ⟨some 1, some 10, none⟩).2
    (mkEnvelope [] 0 1 10)
    (CacheService.set 0 [] (listKey ⟨some 1, some 10, none⟩)
      (mkEnvelope [] 0 1 10) DEFAULT_TTL)
    1 (listPage_miss rfl)

/-- C7: `listPage` returns the envelope data/total/page/limit/totalPages
with the page slice of the filtered records, the page defaulted to 1, the
limit defaulted to 10 and clamped into [1, 100], and totalPages the
ceiling of total over limit; on an empty backing store the envelope is
empty with totalPages 0. -/
theorem listPage_envelope_shape :
    (∀ (db : List Noticia) (p : QueryParams) (now : Nat),
        (listPage now [] db p).1
          = mkEnvelope
              (((db.filter (matchesSearch p.search)).drop
                  ((normPage p - 1) * normLimit p)).take (normLimit p))
              (db.filter (matchesSearch p.search)).length
              (normPage p) (normLimit p)) ∧
    (∀ total lim : Nat, 1 ≤ lim →
        total ≤ lim * ceilDiv total lim ∧ lim * ceilDiv total lim < total + lim) ∧
    (∀ p : QueryParams, 1 ≤ normLimit p ∧ normLimit p ≤ 100) ∧
    (normPage ⟨none, none, none⟩ = 1 ∧ normLimit ⟨none, none, none⟩ = 10) ∧
    (∀ now : Nat,
        (listPage now [] [] ⟨some 1, some 10, none⟩).1 = ⟨[], 0, 1, 10, 0⟩) := by
  refine ⟨?_, ?_, ?_, ⟨rfl, rfl⟩, ?_⟩
  · intro db p now
    rw [listPage_miss (@get_of_lookup_none Envelope now [] (listKey p) rfl)]
    rfl
  · intro total lim hl
    have h1 : ceilDiv total lim * lim ≤ total + lim - 1 := Nat.div_mul_le_self _ _
    have h2 : total + lim - 1 < (ceilDiv total lim + 1) * lim :=
      (Nat.div_lt_iff_lt_mul hl).mp (Nat.lt_succ_self _)
    rw [Nat.succ_mul] at h2
    rw [Nat.mul_comm lim (ceilDiv total lim)]
    set X := ceilDiv total lim * lim with hX
    omega
  · intro p
    unfold normLimit
    omega
  · intro now
    rw [listPage_miss
      (@get_of_lookup_none Envelope now [] (listKey ⟨some 1, some 10, none⟩) rfl)]
    rfl

theorem listPage_envelope_shape_witness :
    5 ≤ 2 * ceilDiv 5 2 ∧ 2 * ceilDiv 5 2 < 5 + 2 :=
  listPage_envelope_shape.2.1 5 2 (by decide)

/-- C8: when the persistence collaborator fails during a cache miss, the
error propagates unchanged to the caller and the cache is left exactly as
it was: a failed lookup stores nothing. -/
theorem db_error_propagates_uncached (now : Nat) (cache : Store Envelope)
    (p : QueryParams) (e : String)
    (h : CacheService.get now cache (listKey p) = none) :
    listPageE now cache p (Except.error e) = (Except.error e, cache) := by
  unfold listPageE
  rw [h]

theorem db_error_propagates_uncached_witness :
    listPageE 0 [] ⟨some 1, some 10, none⟩ (Except.error "connection refused")
      = (Except.error "connection refused", []) :=
  db_error_propagates_uncached 0 [] ⟨some 1, some 10, none⟩ "connection refused" rfl

/-- C9: two parameter mappings that share a parameter name but disagree on
its defined value generate different keys (under the same prefix), given
that the second mapping binds each name at most once. -/
theorem generateKey_value_sensitive (pre : String)
    (p1 p2 : List (String × Option String))
    (hnd2 : ((definedParams p2).map Prod.fst).Nodup)
    (k v1 v2 : String)
    (h1 : (k, v1) ∈ definedParams p1) (h2 : (k, v2) ∈ definedParams p2)
    (hne : v1 ≠ v2) :
    CacheService.generateKey pre p1 ≠ CacheService.generateKey pre p2 := by
  intro heq
  have hperm := generateKey_eq_perm pre p1 p2 heq
  exact hne (keyUnique hnd2 (hperm.mem_iff.mp h1) h2)

theorem generateKey_value_sensitive_witness :
    CacheService.generateKey "noticias" [("page", some "1")]
      ≠ CacheService.generateKey "noticias" [("page", some "2")] :=
  generateKey_value_sensitive "noticias" [("page", some "1")] [("page", some "2")]
    (by decide) "page" "1" "2" (by decide) (by decide) (by decide)

/-- C10: the bootstrap of `src/main.ts` listens on port 3000 (bound to
host 0.0.0.0) when the PORT environment variable is unset, and on the
variable's value when it is set. -/
theorem bootstrap_port_selection :
    bootstrapPort none = Sum.inr 3000 ∧
    (∀ s : String, bootstrapPort (some s) = Sum.inl s) ∧
    bootstrapHost = "0.0.0.0" :=
  ⟨rfl, fun _ => rfl, rfl⟩

end DesafioBackend
